import Mathlib

/-!
Verification of the face identification and matching engine of the
face-recognition-pro backend.  The Python services are shallowly embedded:
similarity scores and quality scores are modelled as rationals, the vector
store as a list of stored vectors, and the fallible service calls as
`Except` values supplied by an environment record.
-/

namespace FaceRec

/-- One match of a vector-store query, after the service turns it into a dict
`{id, person_id, similarity}` (`vector_database.py`, lines 104-114).  Pinecone
vector ids such as `"{person_id}_embedding_{i}"` are modelled as opaque
numeric tokens, only their equality is ever used. -/
structure RawMatch where
  id : Nat
  person : String
  sim : ℚ
deriving DecidableEq, Repr

/-- One dict-update step of the grouping loop of `search_similar_faces`
(`vector_database.py`, lines 117-121): Python dicts keep insertion order, a
key update keeps the original position, and the stored match is replaced only
when the new similarity is strictly greater. -/
def updateBest : List RawMatch → RawMatch → List RawMatch
  | [], x => [x]
  | a :: rest, x =>
    if a.person = x.person then
      if a.sim < x.sim then x :: rest else a :: rest
    else
      a :: updateBest rest x

/-- The `person_matches` dict of `search_similar_faces` after the grouping
loop, as its ordered value list. -/
def groupBestByPerson (l : List RawMatch) : List RawMatch :=
  l.foldl updateBest []

/-- The ordering used by `sorted(..., key=lambda x: x["similarity"],
reverse=True)`: `a` may come before `b` when `b`'s similarity is not larger.
Python's sort is stable, which `List.insertionSort` with this relation
reproduces exactly. -/
def simDesc (a b : RawMatch) : Prop := b.sim ≤ a.sim

instance : DecidableRel simDesc := fun a b => inferInstanceAs (Decidable (b.sim ≤ a.sim))

instance : IsTotal RawMatch simDesc := ⟨fun a b => (le_total b.sim a.sim)⟩

instance : IsTrans RawMatch simDesc := ⟨fun _ _ _ h1 h2 => le_trans h2 h1⟩

/-- Processing of the store's returned matches in `search_similar_faces`
(`vector_database.py`, lines 102-127): filter by threshold, group by person
keeping the best match per person, sort by similarity descending. -/
def search_similar_faces_process (raw : List RawMatch) (threshold : ℚ) : List RawMatch :=
  List.insertionSort simDesc (groupBestByPerson (raw.filter (fun m => threshold ≤ m.sim)))

/-- A vector stored in the Pinecone index: vector id, the `person_id`
metadata field written by `upsert_person_embeddings`, and the embedding
values (opaque for the properties considered here). -/
structure StoredVector where
  id : Nat
  person : String
  values : List ℚ
deriving DecidableEq, Repr

/-- The store-side ordering for a given scoring function: higher score first. -/
def scoreDesc (score : StoredVector → ℚ) (a b : StoredVector) : Prop :=
  score b ≤ score a

instance (score : StoredVector → ℚ) : DecidableRel (scoreDesc score) :=
  fun a b => inferInstanceAs (Decidable (score b ≤ score a))

/-- A Pinecone `index.query`: the vectors satisfying the metadata filter,
ranked by the store's similarity score for the query vector (abstracted as a
scoring function), truncated to `top_k`. -/
def storeQuery (score : StoredVector → ℚ) (store : List StoredVector)
    (pred : StoredVector → Bool) (topK : Nat) : List StoredVector :=
  (List.insertionSort (scoreDesc score) (store.filter pred)).take topK

/-- The dict built from one store match in `search_similar_faces`. -/
def toRawMatch (score : StoredVector → ℚ) (v : StoredVector) : RawMatch :=
  ⟨v.id, v.person, score v⟩

/-- Model of `VectorDatabaseService.search_similar_faces` (`vector_database.py`,
lines 87-131): query the store with the caller's `top_k` and no metadata
filter, then filter, group and rank the returned matches. -/
def search_similar_faces (score : StoredVector → ℚ) (store : List StoredVector)
    (topK : Nat) (threshold : ℚ) : List RawMatch :=
  search_similar_faces_process
    ((storeQuery score store (fun _ => true) topK).map (toRawMatch score))
    threshold

/-- Model of `VectorDatabaseService.delete_person_embeddings` (`vector_database.py`,
lines 133-161): query the store with a dummy vector, `top_k = 10000` and the
metadata filter `person_id = P`, collect the returned vector ids, and delete
those ids (the deletion batches of 1000 remove the same id set as one
deletion).  `dummyScore` is the store's scoring against the dummy zero
vector. -/
def delete_person_embeddings (dummyScore : StoredVector → ℚ)
    (store : List StoredVector) (p : String) : List StoredVector :=
  let ids := (storeQuery dummyScore store (fun v => v.person = p) 10000).map (·.id)
  store.filter (fun v => v.id ∉ ids)

/-! Similarity computation (`face_recognition.py`).  Embedding vectors carry
rational entries; the real-valued similarity uses `Real.sqrt` for
`np.linalg.norm`. -/

/-- The dot product `np.dot` on rational vectors. -/
def dotQ (v w : List ℚ) : ℚ := (List.zipWith (· * ·) v w).sum

/-- The squared L2 norm; `np.linalg.norm v == 0` holds exactly when
`normSq v = 0`. -/
def normSq (v : List ℚ) : ℚ := dotQ v v

/-- The norm `np.linalg.norm`. -/
noncomputable def l2norm (v : List ℚ) : ℝ := Real.sqrt (normSq v)

/-- The quotient `v / np.linalg.norm(v)`, the unit-normalization used by
`_extract_embedding_sync` (line 223) and `calculate_similarity`
(lines 281-282). -/
noncomputable def normalize (v : List ℚ) : List ℝ := v.map (fun x : ℚ => (x : ℝ) / l2norm v)

/-- The dot product `np.dot` on real vectors. -/
noncomputable def dotR (v w : List ℝ) : ℝ := (List.zipWith (· * ·) v w).sum

/-- Entrywise cast of a rational vector into the reals. -/
noncomputable def castR (v : List ℚ) : List ℝ := v.map Rat.cast

/-- Squared L2 norm of a real vector. -/
noncomputable def normSqR (v : List ℝ) : ℝ := dotR v v

/-- L2 norm of a real vector. -/
noncomputable def l2normR (v : List ℝ) : ℝ := Real.sqrt (normSqR v)

/-- Model of `FaceRecognitionService.calculate_similarity` (`face_recognition.py`,
lines 271-294): return 0.0 when either norm is zero, otherwise normalize both
embeddings, take the dot product, map through `(s + 1) / 2` and clip to
`[0, 1]` (`np.clip(c, 0.0, 1.0) = min (max c 0) 1`). -/
noncomputable def calculate_similarity (e1 e2 : List ℚ) : ℝ :=
  if normSq e1 = 0 ∨ normSq e2 = 0 then 0
  else
    let similarity := dotR (normalize e1) (normalize e2)
    let confidence := (similarity + 1) / 2
    min (max confidence 0) 1

/-- The tail of `_extract_embedding_sync` (`face_recognition.py`,
lines 216-225), after the opaque model inference: raise when the model
returned no embedding, otherwise unit-normalize the first embedding and
return it.  The preprocessing and `DeepFace.represent` are abstracted into
the `embedding_result` argument. -/
noncomputable def extract_embedding_sync (embedding_result : List (List ℚ)) :
    Except String (List ℝ) :=
  match embedding_result with
  | [] => Except.error "Nenhum embedding foi extraido"
  | e :: _ => Except.ok (normalize e)

/-! Image-quality handling and the identification pipelines. -/

/-- The hard-coded low-quality floor `0.2` of
`process_image_for_recognition` (`face_recognition.py`, line 341), written as
a normal-form rational so concrete comparisons kernel-reduce. -/
def qualityWarnFloor : ℚ := ⟨1, 5, by norm_num, by norm_num⟩

/-- One entry of `embeddings_data`: an extracted face embedding with its
quality score (`face_recognition.py`, lines 249-253). -/
structure EmbCandidate where
  embedding : List ℚ
  quality : ℚ
deriving DecidableEq, Repr

/-- Environment of one `process_image_for_recognition` call: whether
`base64_to_cv2` succeeds, the computed quality score, and the outcome of
`extract_multiple_embeddings`. -/
structure ProcImgEnv where
  decodeOk : Bool
  quality : ℚ
  extract : Except String (List EmbCandidate)

/-- Observable side effects of one `process_image_for_recognition` call. -/
structure ProcTrace where
  warnedLowQuality : Bool
  extractionAttempted : Bool
deriving DecidableEq, Repr

/-- Model of `FaceRecognitionService.process_image_for_recognition`
(`face_recognition.py`, lines 330-352): decode (raising
`InvalidImageException` on bad bytes), compute the quality score, log a
warning when it is below 0.2, then extract embeddings; every exception is
re-raised unchanged by the `except` clause. -/
def process_image_for_recognition (env : ProcImgEnv) :
    Except String (List EmbCandidate) × ProcTrace :=
  if env.decodeOk then
    (env.extract, ⟨decide (env.quality < qualityWarnFloor), true⟩)
  else
    (Except.error "InvalidImageException: Failed to decode base64 image", ⟨false, false⟩)

/-! The `RecognitionResult` response schema (`schemas/recognition.py`,
lines 11-17). -/

/-- The pydantic field types occurring in the recognition schemas. -/
inductive FieldType where
  | optStr
  | str
  | float
  | bool
deriving DecidableEq, Repr

/-- The complete field list of `RecognitionResult`
(`schemas/recognition.py`, lines 11-17), in declaration order with the
declared types. -/
def recognitionResultFields : List (String × FieldType) :=
  [("person_id", FieldType.optStr), ("person_name", FieldType.optStr),
   ("confidence", FieldType.float), ("status", FieldType.str),
   ("processing_time", FieldType.float), ("message", FieldType.optStr)]

/-! The `/identify` endpoint (`api/recognition.py`, lines 26-150). -/

/-- Environment of one `identify_face` call: the outcome of the (properly
awaited) `process_image_for_recognition` call, the outcome of the vector
search, and the person directory. -/
structure ApiIdentifyEnv where
  proc : Except String (List EmbCandidate)
  search : Except String (List RawMatch)
  personName : String → Option String

/-- The response value produced by `identify_face`. -/
structure ApiResult where
  person : Option String
  personName : Option String
  confidence : ℚ
  status : String
deriving DecidableEq, Repr

/-- Observable trace of one `identify_face` call: whether the
quality-and-extraction pipeline (`process_image_for_recognition`) was
invoked. -/
structure ApiTrace where
  processInvoked : Bool
deriving DecidableEq, Repr

/-- Model of `identify_face` (`api/recognition.py`, lines 26-150): the pipeline call
at line 40 runs unconditionally — there is no cache lookup before it.
Exception payload routing (re-raise of known exceptions versus the generic
HTTP 500 wrapper) is collapsed into the `Except.error` value, which the
properties below do not inspect. -/
def identify_face (env : ApiIdentifyEnv) : Except String ApiResult × ApiTrace :=
  match env.proc with
  | Except.error e => (Except.error e, ⟨true⟩)
  | Except.ok embs =>
    if embs.isEmpty then
      (Except.ok ⟨none, none, 0, "no_face"⟩, ⟨true⟩)
    else
      match env.search with
      | Except.error e => (Except.error e, ⟨true⟩)
      | Except.ok ms =>
        match ms with
        | [] => (Except.ok ⟨none, none, 0, "no_match"⟩, ⟨true⟩)
        | best :: _ =>
          (Except.ok ⟨some best.person, some ((env.personName best.person).getD "Unknown"),
            best.sim, "success"⟩, ⟨true⟩)

/-! Model of `RecognitionService.identify_person` (`recognition_service.py`,
lines 22-122). -/

/-- The exceptions in play inside `identify_person`. -/
inductive RSExc where
  | noFaceDetected
  | typeError
  | faceRecognition
  | vectorDatabase
deriving DecidableEq, Repr

/-- Environment of one `identify_person` call: what awaiting
`process_image_for_recognition` would yield, the vector-search outcome, and
the person table. -/
structure IdentifyEnv where
  procResult : Except RSExc (List EmbCandidate)
  searchResult : Except RSExc (List RawMatch)
  personName : String → Option String

/-- The value of the Python expression
`self.face_recognition.process_image_for_recognition(base64_image)` at
`recognition_service.py`, line 32: the method is `async def` and the call
site does not `await` it, so the expression evaluates to a coroutine object
without running the method body. -/
inductive PyValue where
  | coroutine (pending : Except RSExc (List EmbCandidate))
  | pair (a : Unit) (b : List EmbCandidate)

/-- Tuple unpacking `cv2_image, embeddings_data = rhs`: iterating a
coroutine object raises `TypeError`; a genuine pair unpacks. -/
def unpackPair2 : PyValue → Except RSExc (Unit × List EmbCandidate)
  | PyValue.coroutine _ => Except.error RSExc.typeError
  | PyValue.pair a b => Except.ok (a, b)

/-- One `recognition_logs` row written by `_log_recognition`. -/
structure LogEntry where
  person : Option String
  confidence : ℚ
  status : String
deriving DecidableEq, Repr

/-- The dict returned by `identify_person`. -/
structure IdentifyResult where
  person : Option String
  personName : Option String
  confidence : ℚ
  status : String
  recognized : Bool
deriving DecidableEq, Repr

/-- Model of `max(embeddings_data, key=lambda x: x.get("quality_score", 0))`:
Python's `max` keeps the first of several maximal elements and replaces only
on strictly greater keys. -/
def bestByQuality : List EmbCandidate → Option EmbCandidate
  | [] => none
  | x :: xs => some (xs.foldl (fun acc y => if acc.quality < y.quality then y else acc) x)

/-- Lines 34-90 of `identify_person`, after `embeddings_data` has been
obtained: raise `NoFaceDetectedException` when it is empty, query the vector
store, and build the success or no-match response together with the
recognition-log row the branch writes. -/
def identifyBodyAfterUnpack (env : IdentifyEnv) (embeddings_data : List EmbCandidate) :
    Except RSExc (List LogEntry × IdentifyResult) :=
  if embeddings_data.isEmpty then Except.error RSExc.noFaceDetected
  else
    match env.searchResult with
    | Except.error e => Except.error e
    | Except.ok ms =>
      match ms with
      | best :: _ =>
        let name := (env.personName best.person).getD "Unknown"
        Except.ok ([⟨some best.person, best.sim, "success"⟩],
          ⟨some best.person, some name, best.sim, "success", true⟩)
      | [] =>
        Except.ok ([⟨none, 0, "no_match"⟩], ⟨none, none, 0, "no_match", false⟩)

/-- The `except` clauses of `identify_person` (lines 92-122): a
`NoFaceDetectedException` becomes the soft `"no_face"` response with a
`"no_face"` log row; any other exception is logged with status `"error"` and
re-raised as `FaceRecognitionException`. -/
def identifyHandlers (tryResult : Except RSExc (List LogEntry × IdentifyResult)) :
    List LogEntry × Except RSExc IdentifyResult :=
  match tryResult with
  | Except.ok (logs, r) => (logs, Except.ok r)
  | Except.error RSExc.noFaceDetected =>
    ([⟨none, 0, "no_face"⟩], Except.ok ⟨none, none, 0, "no_face", false⟩)
  | Except.error _ =>
    ([⟨none, 0, "error"⟩], Except.error RSExc.faceRecognition)

/-- Model of `RecognitionService.identify_person` as executed: the call at line 32 is
missing its `await`, so the body binds a coroutine object and the tuple
unpacking raises `TypeError` before anything else runs. -/
def identify_person (env : IdentifyEnv) : List LogEntry × Except RSExc IdentifyResult :=
  identifyHandlers (do
    let cor : PyValue := PyValue.coroutine env.procResult
    let (_, embeddings_data) ← unpackPair2 cor
    identifyBodyAfterUnpack env embeddings_data)

/-- Model of `identify_person` as evidently intended, with the missing `await`
restored: `process_image_for_recognition` actually runs and its
`NoFaceDetectedException` reaches the soft handler. -/
def identify_person_awaited (env : IdentifyEnv) : List LogEntry × Except RSExc IdentifyResult :=
  identifyHandlers (do
    let embeddings_data ← env.procResult
    identifyBodyAfterUnpack env embeddings_data)

/-! Model of `batch_identify_faces` (`api/recognition.py`, lines 379-512). -/

/-- Per-item environment of one batch entry: the pipeline outcome for that
image, the vector-search outcome, the person directory, and whether
`create_recognition_log` succeeds for this item. -/
structure BatchItemEnv where
  proc : Except String (List EmbCandidate)
  search : Except String (List RawMatch)
  personName : String → Option String
  logWriteOk : Bool

/-- One entry of `batch_results` (the `result` dicts built at
lines 403-453 and 473-481; numeric message formatting is elided). -/
structure BatchResult where
  imageIndex : Nat
  person : Option String
  personName : Option String
  confidence : ℚ
  status : String
  message : String
deriving DecidableEq, Repr

/-- The error entry appended by the per-item `except` clause
(lines 471-481). -/
def batchErrorResult (i : Nat) (e : String) : BatchResult :=
  ⟨i, none, none, 0, "error", "Processing error: " ++ e⟩

/-- Lines 396-453 for item `i`: everything up to the construction of this
item's `result` dict, with exceptions propagated. -/
def batchItemBody (it : BatchItemEnv) (i : Nat) : Except String BatchResult :=
  match it.proc with
  | Except.error e => Except.error e
  | Except.ok embs =>
    if embs.isEmpty then Except.ok ⟨i, none, none, 0, "no_face", "No face detected"⟩
    else
      match it.search with
      | Except.error e => Except.error e
      | Except.ok ms =>
        match ms with
        | best :: _ =>
          Except.ok ⟨i, some best.person, some ((it.personName best.person).getD "Unknown"),
            best.sim, "success", "Identified"⟩
        | [] => Except.ok ⟨i, none, none, 0, "no_match", "No match found"⟩

/-- One loop iteration of `batch_identify_faces` for item `i`: the results
it appends.  The `results.append(result)` at line 455 happens before the
log write at lines 458-469, and both sit inside the per-item `try`, so a
failing log write appends a second, error entry for the same item. -/
def runBatchItem (it : BatchItemEnv) (i : Nat) (saveLogs : Bool) : List BatchResult :=
  match batchItemBody it i with
  | Except.error e => [batchErrorResult i e]
  | Except.ok r =>
    if saveLogs && !it.logWriteOk then [r, batchErrorResult i "log write failed"]
    else [r]

/-- The single result item `i` contributes when its log write does not
fail. -/
def batchItemResult (it : BatchItemEnv) (i : Nat) : BatchResult :=
  match batchItemBody it i with
  | Except.error e => batchErrorResult i e
  | Except.ok r => r

/-- The `batch_results` list built by `batch_identify_faces`
(lines 390-482): the loop `for i, image_base64 in enumerate(images)` with a
per-item `try`/`except`. -/
def batch_identify_faces (items : List BatchItemEnv) (saveLogs : Bool) : List BatchResult :=
  (items.enum.map (fun p => runBatchItem p.2 p.1 saveLogs)).flatten

/-! Concrete inputs used by the witnesses and counterexamples. -/

/-- A store holding 10001 embeddings, all enrolled for person `"P"`. -/
def bigStore : List StoredVector := (List.range 10001).map (fun i => ⟨i, "P", []⟩)

/-- A degenerate store scoring function (for example the score against the
dummy zero vector, for which cosine similarity is constant). -/
def score0 : StoredVector → ℚ := fun _ => 0

/-- A two-person store. -/
def smallStore : List StoredVector := [⟨0, "P", []⟩, ⟨1, "Q", []⟩]

/-- Raw store matches: two matches for person `"A"` and one for `"B"`. -/
def rawW : List RawMatch := [⟨0, "A", 1⟩, ⟨1, "A", 3⟩, ⟨2, "B", 2⟩]

/-- Two persons with numerically equal scores, store order `A` then `B`. -/
def rawTieAB : List RawMatch := [⟨0, "A", 1⟩, ⟨1, "B", 1⟩]

/-- The same two matches, store order `B` then `A`. -/
def rawTieBA : List RawMatch := [⟨1, "B", 1⟩, ⟨0, "A", 1⟩]

/-- An identification attempt on an image in which face detection finds no
face: awaiting the pipeline would raise `NoFaceDetectedException`. -/
def envNoFace : IdentifyEnv :=
  ⟨Except.error RSExc.noFaceDetected, Except.ok [], fun _ => none⟩

/-- A plain successful-identification environment for the `/identify`
endpoint; the same environment models a repeated call on the same image
bytes, since the service keeps no per-image state. -/
def apiEnvRepeat : ApiIdentifyEnv :=
  ⟨Except.ok [⟨[1], 1⟩], Except.ok [⟨0, "A", 1⟩], fun _ => none⟩

/-- A decodable image whose quality score 0 is below every floor in play. -/
def envLowQuality : ProcImgEnv := ⟨true, 0, Except.ok [⟨[1], 1⟩]⟩

/-- A healthy batch item that identifies person `"A"`. -/
def itemOk : BatchItemEnv :=
  ⟨Except.ok [⟨[1], 1⟩], Except.ok [⟨0, "A", 1⟩], fun _ => some "Alice", true⟩

/-- A batch item whose image processing raises. -/
def itemBadImage : BatchItemEnv :=
  ⟨Except.error "InvalidImageException", Except.ok [], fun _ => none, true⟩

/-- A batch item that processes fine but whose recognition-log write
raises. -/
def itemLogFail : BatchItemEnv :=
  ⟨Except.ok [⟨[1], 1⟩], Except.ok [], fun _ => none, false⟩

/-- A healthy two-image batch. -/
def itemsW : List BatchItemEnv := [itemOk, itemBadImage]

/-- A batch where the first item's log write fails. -/
def itemsBad : List BatchItemEnv := [itemLogFail, itemOk]

/-! Properties of the grouping loop of `search_similar_faces`. -/

theorem mem_updateBest (x : RawMatch) :
    ∀ (acc : List RawMatch), ∀ c ∈ updateBest acc x, c ∈ acc ∨ c = x := by
  intro acc
  induction acc with
  | nil =>
    intro c hc
    simp only [updateBest, List.mem_singleton] at hc
    exact Or.inr hc
  | cons a rest ih =>
    intro c hc
    simp only [updateBest] at hc
    by_cases hp : a.person = x.person
    · rw [if_pos hp] at hc
      by_cases hs : a.sim < x.sim
      · rw [if_pos hs] at hc
        rcases List.mem_cons.mp hc with h | h
        · exact Or.inr h
        · exact Or.inl (List.mem_cons_of_mem a h)
      · rw [if_neg hs] at hc
        exact Or.inl hc
    · rw [if_neg hp] at hc
      rcases List.mem_cons.mp hc with h | h
      · exact Or.inl (h ▸ List.mem_cons_self a rest)
      · rcases ih c h with h2 | h2
        · exact Or.inl (List.mem_cons_of_mem a h2)
        · exact Or.inr h2

theorem updateBest_keys (x : RawMatch) :
    ∀ (acc : List RawMatch), ∀ q ∈ (updateBest acc x).map (·.person),
      q = x.person ∨ q ∈ acc.map (·.person) := by
  intro acc
  induction acc with
  | nil =>
    intro q hq
    simp only [updateBest, List.map_cons, List.map_nil, List.mem_singleton] at hq
    exact Or.inl hq
  | cons a rest ih =>
    intro q hq
    simp only [updateBest] at hq
    by_cases hp : a.person = x.person
    · rw [if_pos hp] at hq
      by_cases hs : a.sim < x.sim
      · rw [if_pos hs] at hq
        rcases List.mem_map.mp hq with ⟨c, hc, hcq⟩
        rcases List.mem_cons.mp hc with h | h
        · exact Or.inl (by rw [← hcq, h])
        · exact Or.inr (List.mem_map.mpr ⟨c, List.mem_cons_of_mem a h, hcq⟩)
      · rw [if_neg hs] at hq
        exact Or.inr hq
    · rw [if_neg hp] at hq
      rcases List.mem_map.mp hq with ⟨c, hc, hcq⟩
      rcases List.mem_cons.mp hc with h | h
      · exact Or.inr (List.mem_map.mpr ⟨c, h ▸ List.mem_cons_self a rest, hcq⟩)
      · rcases ih q (List.mem_map.mpr ⟨c, h, hcq⟩) with h2 | h2
        · exact Or.inl h2
        · rcases List.mem_map.mp h2 with ⟨d, hd, hdq⟩
          exact Or.inr (List.mem_map.mpr ⟨d, List.mem_cons_of_mem a hd, hdq⟩)

theorem updateBest_keys_nodup (x : RawMatch) :
    ∀ (acc : List RawMatch), (acc.map (·.person)).Nodup →
      ((updateBest acc x).map (·.person)).Nodup := by
  intro acc
  induction acc with
  | nil =>
    intro _
    simp [updateBest]
  | cons a rest ih =>
    intro hnd
    simp only [List.map_cons, List.nodup_cons] at hnd
    simp only [updateBest]
    by_cases hp : a.person = x.person
    · rw [if_pos hp]
      by_cases hs : a.sim < x.sim
      · rw [if_pos hs]
        simp only [List.map_cons, List.nodup_cons]
        exact ⟨by rw [← hp]; exact hnd.1, hnd.2⟩
      · rw [if_neg hs]
        simp only [List.map_cons, List.nodup_cons]
        exact hnd
    · rw [if_neg hp]
      simp only [List.map_cons, List.nodup_cons]
      refine ⟨fun hmem => ?_, ih hnd.2⟩
      rcases updateBest_keys x rest a.person hmem with h | h
      · exact hp h
      · exact hnd.1 h

theorem updateBest_has_person (x : RawMatch) :
    ∀ (acc : List RawMatch), ∃ c ∈ updateBest acc x, c.person = x.person := by
  intro acc
  induction acc with
  | nil => exact ⟨x, by simp [updateBest]⟩
  | cons a rest ih =>
    simp only [updateBest]
    by_cases hp : a.person = x.person
    · rw [if_pos hp]
      by_cases hs : a.sim < x.sim
      · rw [if_pos hs]
        exact ⟨x, List.mem_cons_self x rest, rfl⟩
      · rw [if_neg hs]
        exact ⟨a, List.mem_cons_self a rest, hp⟩
    · rw [if_neg hp]
      rcases ih with ⟨c, hc, hcp⟩
      exact ⟨c, List.mem_cons_of_mem a hc, hcp⟩

theorem updateBest_covers (x : RawMatch) :
    ∀ (acc : List RawMatch), ∀ a ∈ acc, ∃ c ∈ updateBest acc x, c.person = a.person := by
  intro acc
  induction acc with
  | nil => intro a ha; cases ha
  | cons b rest ih =>
    intro a ha
    simp only [updateBest]
    by_cases hp : b.person = x.person
    · rw [if_pos hp]
      by_cases hs : b.sim < x.sim
      · rw [if_pos hs]
        rcases List.mem_cons.mp ha with h | h
        · exact ⟨x, List.mem_cons_self x rest, by rw [h, hp]⟩
        · exact ⟨a, List.mem_cons_of_mem x h, rfl⟩
      · rw [if_neg hs]
        rcases List.mem_cons.mp ha with h | h
        · exact ⟨b, List.mem_cons_self b rest, by rw [h]⟩
        · exact ⟨a, List.mem_cons_of_mem b h, rfl⟩
    · rw [if_neg hp]
      rcases List.mem_cons.mp ha with h | h
      · exact ⟨b, List.mem_cons_self b _, by rw [h]⟩
      · rcases ih a h with ⟨c, hc, hcp⟩
        exact ⟨c, List.mem_cons_of_mem b hc, hcp⟩

theorem updateBest_dominates (x : RawMatch) :
    ∀ (acc : List RawMatch), (acc.map (·.person)).Nodup →
      ∀ c ∈ updateBest acc x, c.person = x.person → x.sim ≤ c.sim := by
  intro acc
  induction acc with
  | nil =>
    intro _ c hc _
    simp only [updateBest, List.mem_singleton] at hc
    exact hc ▸ le_refl x.sim
  | cons a rest ih =>
    intro hnd c hc hcp
    simp only [List.map_cons, List.nodup_cons] at hnd
    simp only [updateBest] at hc
    by_cases hp : a.person = x.person
    · rw [if_pos hp] at hc
      by_cases hs : a.sim < x.sim
      · rw [if_pos hs] at hc
        rcases List.mem_cons.mp hc with h | h
        · exact h ▸ le_refl x.sim
        · exact absurd (List.mem_map.mpr ⟨c, h, hcp.trans hp.symm⟩) hnd.1
      · rw [if_neg hs] at hc
        rcases List.mem_cons.mp hc with h | h
        · exact h ▸ le_of_not_lt hs
        · exact absurd (List.mem_map.mpr ⟨c, h, hcp.trans hp.symm⟩) hnd.1
    · rw [if_neg hp] at hc
      rcases List.mem_cons.mp hc with h | h
      · exact absurd (h ▸ hcp) hp
      · exact ih hnd.2 c h hcp

theorem updateBest_new_or_old (x : RawMatch) :
    ∀ (acc : List RawMatch), (acc.map (·.person)).Nodup →
      ∀ c ∈ updateBest acc x,
        c ∈ acc ∨ (c = x ∧ ∀ a ∈ acc, a.person = x.person → a.sim ≤ x.sim) := by
  intro acc
  induction acc with
  | nil =>
    intro _ c hc
    simp only [updateBest, List.mem_singleton] at hc
    exact Or.inr ⟨hc, by intro a ha; cases ha⟩
  | cons a rest ih =>
    intro hnd c hc
    simp only [List.map_cons, List.nodup_cons] at hnd
    simp only [updateBest] at hc
    by_cases hp : a.person = x.person
    · rw [if_pos hp] at hc
      by_cases hs : a.sim < x.sim
      · rw [if_pos hs] at hc
        rcases List.mem_cons.mp hc with h | h
        · refine Or.inr ⟨h, ?_⟩
          intro b hb hbp
          rcases List.mem_cons.mp hb with h2 | h2
          · exact h2 ▸ le_of_lt hs
          · exact absurd (List.mem_map.mpr ⟨b, h2, hbp.trans hp.symm⟩) hnd.1
        · exact Or.inl (List.mem_cons_of_mem a h)
      · rw [if_neg hs] at hc
        exact Or.inl hc
    · rw [if_neg hp] at hc
      rcases List.mem_cons.mp hc with h | h
      · exact Or.inl (h ▸ List.mem_cons_self a rest)
      · rcases ih hnd.2 c h with h2 | h2
        · exact Or.inl (List.mem_cons_of_mem a h2)
        · refine Or.inr ⟨h2.1, ?_⟩
          intro b hb hbp
          rcases List.mem_cons.mp hb with h3 | h3
          · exact absurd (h3 ▸ hbp) hp
          · exact h2.2 b h3 hbp

/-- The loop invariant of the grouping loop, carried along `List.foldl`:
keys are distinct, every accumulated match comes from the processed prefix
and dominates its person there, and every processed person is represented. -/
theorem foldl_updateBest_invariant :
    ∀ (l acc processed : List RawMatch),
      (acc.map (·.person)).Nodup →
      (∀ c ∈ acc, c ∈ processed ∧ ∀ b ∈ processed, b.person = c.person → b.sim ≤ c.sim) →
      (∀ b ∈ processed, ∃ c ∈ acc, c.person = b.person) →
      ((((l.foldl updateBest acc).map (·.person)).Nodup)
       ∧ (∀ c ∈ l.foldl updateBest acc,
            c ∈ processed ++ l ∧ ∀ b ∈ processed ++ l, b.person = c.person → b.sim ≤ c.sim)
       ∧ (∀ b ∈ processed ++ l, ∃ c ∈ l.foldl updateBest acc, c.person = b.person)) := by
  intro l
  induction l with
  | nil =>
    intro acc processed hnd hdom hcov
    simpa using ⟨hnd, hdom, hcov⟩
  | cons x xs ih =>
    intro acc processed hnd hdom hcov
    have step_nd : ((updateBest acc x).map (·.person)).Nodup := updateBest_keys_nodup x acc hnd
    have step_dom : ∀ c ∈ updateBest acc x,
        c ∈ processed ++ [x] ∧ ∀ b ∈ processed ++ [x], b.person = c.person → b.sim ≤ c.sim := by
      intro c hc
      rcases updateBest_new_or_old x acc hnd c hc with hold | ⟨hex, hall⟩
      · refine ⟨List.mem_append_left _ (hdom c hold).1, ?_⟩
        intro b hb hbp
        rcases List.mem_append.mp hb with h | h
        · exact (hdom c hold).2 b h hbp
        · have hbx : b = x := List.mem_singleton.mp h
          rw [hbx] at hbp ⊢
          exact updateBest_dominates x acc hnd c hc hbp.symm
      · subst hex
        refine ⟨List.mem_append_right _ (List.mem_singleton_self c), ?_⟩
        intro b hb hbp
        rcases List.mem_append.mp hb with h | h
        · rcases hcov b h with ⟨a, ha, hap⟩
          have h1 : b.sim ≤ a.sim := (hdom a ha).2 b h hap.symm
          have h2 : a.sim ≤ c.sim := hall a ha (hap.trans hbp)
          exact h1.trans h2
        · have hbx : b = c := List.mem_singleton.mp h
          rw [hbx]
    have step_cov : ∀ b ∈ processed ++ [x], ∃ c ∈ updateBest acc x, c.person = b.person := by
      intro b hb
      rcases List.mem_append.mp hb with h | h
      · rcases hcov b h with ⟨a, ha, hap⟩
        rcases updateBest_covers x acc a ha with ⟨c, hc, hcp⟩
        exact ⟨c, hc, hcp.trans hap⟩
      · rcases updateBest_has_person x acc with ⟨c, hc, hcp⟩
        have hbx : b = x := List.mem_singleton.mp h
        exact ⟨c, hc, by rw [hbx]; exact hcp⟩
    have hmain := ih (updateBest acc x) (processed ++ [x]) step_nd step_dom step_cov
    rw [List.append_assoc, List.singleton_append] at hmain
    simpa [List.foldl_cons] using hmain

/-- Specification of the `person_matches` dict after the grouping loop. -/
theorem groupBestByPerson_spec (l : List RawMatch) :
    (((groupBestByPerson l).map (·.person)).Nodup)
    ∧ (∀ c ∈ groupBestByPerson l, c ∈ l ∧ ∀ b ∈ l, b.person = c.person → b.sim ≤ c.sim)
    ∧ (∀ b ∈ l, ∃ c ∈ groupBestByPerson l, c.person = b.person) := by
  have h := foldl_updateBest_invariant l [] []
    (by simp) (by intro c hc; cases hc) (by intro b hb; cases hb)
  simpa [groupBestByPerson] using h

/-- Every match in the final ranked output comes from the store's returned
match list. -/
theorem mem_search_process (raw : List RawMatch) (θ : ℚ) :
    ∀ m ∈ search_similar_faces_process raw θ, m ∈ raw := by
  intro m hm
  rw [search_similar_faces_process] at hm
  have h1 : m ∈ groupBestByPerson (raw.filter (fun b => θ ≤ b.sim)) :=
    (List.perm_insertionSort simDesc _).mem_iff.mp hm
  exact List.mem_of_mem_filter ((groupBestByPerson_spec _).2.1 m h1).1

/-- C1.  Contract of the nearest-neighbor query processing: every returned
match passes the threshold; the output has at most one match per person, and
that match carries the maximum similarity among the person's
threshold-passing raw store matches (aggregate-by-max); and the output is
sorted by non-increasing similarity. -/
theorem search_similar_faces_query_contract (raw : List RawMatch) (threshold : ℚ) :
    (∀ m ∈ search_similar_faces_process raw threshold, threshold ≤ m.sim)
    ∧ ((search_similar_faces_process raw threshold).map (·.person)).Nodup
    ∧ (∀ m ∈ search_similar_faces_process raw threshold,
        m ∈ raw.filter (fun b => threshold ≤ b.sim)
        ∧ ∀ b ∈ raw.filter (fun b => threshold ≤ b.sim),
            b.person = m.person → b.sim ≤ m.sim)
    ∧ List.Sorted simDesc (search_similar_faces_process raw threshold) := by
  have hperm : (search_similar_faces_process raw threshold).Perm
      (groupBestByPerson (raw.filter (fun b => threshold ≤ b.sim))) :=
    List.perm_insertionSort simDesc _
  have hspec := groupBestByPerson_spec (raw.filter (fun b => threshold ≤ b.sim))
  refine ⟨?_, ?_, ?_, ?_⟩
  · intro m hm
    have h1 : m ∈ raw.filter (fun b => threshold ≤ b.sim) :=
      (hspec.2.1 m (hperm.mem_iff.mp hm)).1
    simpa using (List.mem_filter.mp h1).2
  · exact ((hperm.map (·.person)).nodup_iff).mpr hspec.1
  · intro m hm
    exact hspec.2.1 m (hperm.mem_iff.mp hm)
  · exact List.sorted_insertionSort simDesc _

/-- C1 witness at a concrete store response: two matches for person `"A"`
(similarities 1 and 3) and one for `"B"` (similarity 2) with threshold 1. -/
theorem search_similar_faces_query_contract_witness :
    ((search_similar_faces_process rawW 1).map (·.person)).Nodup
    ∧ List.Sorted simDesc (search_similar_faces_process rawW 1)
    ∧ (1 : ℚ) ≤ (⟨1, "A", 3⟩ : RawMatch).sim
    ∧ ((⟨1, "A", 3⟩ : RawMatch) ∈ rawW.filter (fun b => (1 : ℚ) ≤ b.sim)
       ∧ ∀ b ∈ rawW.filter (fun b => (1 : ℚ) ≤ b.sim),
           b.person = (⟨1, "A", 3⟩ : RawMatch).person → b.sim ≤ (⟨1, "A", 3⟩ : RawMatch).sim) :=
  ⟨(search_similar_faces_query_contract rawW 1).2.1,
   (search_similar_faces_query_contract rawW 1).2.2.2,
   (search_similar_faces_query_contract rawW 1).1 ⟨1, "A", 3⟩ (by decide),
   (search_similar_faces_query_contract rawW 1).2.2.1 ⟨1, "A", 3⟩ (by decide)⟩

/-! Stability of the final ranking: Python's `sorted` is stable, so matches
with equal similarity keep the order in which their persons entered the
grouping dict. -/

theorem filter_orderedInsert_simEq (s : ℚ) (x : RawMatch) (hx : x.sim = s) :
    ∀ (l : List RawMatch),
      (List.orderedInsert simDesc x l).filter (fun m => m.sim = s)
        = x :: l.filter (fun m => m.sim = s) := by
  intro l
  induction l with
  | nil => simp [List.orderedInsert, hx]
  | cons b bs ih =>
    by_cases hb : simDesc x b
    · rw [List.orderedInsert, if_pos hb]
      simp [List.filter_cons, hx]
    · rw [List.orderedInsert, if_neg hb]
      have hxb : x.sim < b.sim := lt_of_not_le (fun h => hb h)
      have hbs : ¬ (b.sim = s) := fun hbss =>
        absurd (le_of_eq (hbss.trans hx.symm)) (not_le_of_lt hxb)
      rw [List.filter_cons, List.filter_cons]
      simp [hbs, ih]

theorem filter_orderedInsert_simNe (s : ℚ) (x : RawMatch) (hx : x.sim ≠ s) :
    ∀ (l : List RawMatch),
      (List.orderedInsert simDesc x l).filter (fun m => m.sim = s)
        = l.filter (fun m => m.sim = s) := by
  intro l
  induction l with
  | nil => simp [List.orderedInsert, hx]
  | cons b bs ih =>
    by_cases hb : simDesc x b
    · rw [List.orderedInsert, if_pos hb]
      simp [List.filter_cons, hx]
    · rw [List.orderedInsert, if_neg hb]
      rw [List.filter_cons, List.filter_cons]
      by_cases hbs : b.sim = s
      · simp [hbs, ih]
      · simp [hbs, ih]

theorem filter_insertionSort_simEq (s : ℚ) :
    ∀ (l : List RawMatch),
      (List.insertionSort simDesc l).filter (fun m => m.sim = s)
        = l.filter (fun m => m.sim = s) := by
  intro l
  induction l with
  | nil => rfl
  | cons x xs ih =>
    rw [List.insertionSort]
    by_cases hx : x.sim = s
    · rw [filter_orderedInsert_simEq s x hx, ih, List.filter_cons]
      simp [hx]
    · rw [filter_orderedInsert_simNe s x hx, ih, List.filter_cons]
      simp [hx]

/-- C8 (amended).  Matches with equal (tied) similarity appear in the final
ranking exactly in the order their persons entered the grouping dict, i.e.
in the order of each person's first threshold-passing match in the
store-returned list — not in an order normalized by person id. -/
theorem search_ties_follow_store_order (raw : List RawMatch) (threshold s : ℚ) :
    (search_similar_faces_process raw threshold).filter (fun m => m.sim = s)
      = (groupBestByPerson (raw.filter (fun b => threshold ≤ b.sim))).filter
          (fun m => m.sim = s) := by
  rw [search_similar_faces_process]
  exact filter_insertionSort_simEq s _

/-- C8 counterexample.  The same set of raw store matches, returned in two
different orders, yields two different ranked outputs when two persons tie:
the ranking is not deterministic in the set of matches. -/
theorem search_order_dependent_ties :
    rawTieAB.Perm rawTieBA
    ∧ search_similar_faces_process rawTieAB 0 ≠ search_similar_faces_process rawTieBA 0 := by
  constructor
  · decide
  · decide

/-! Deletion visibility. -/

/-- C2 (amended).  Provided person `p` has at most 10000 stored embeddings —
the `top_k` cap used by the deletion query — `delete_person_embeddings`
removes them all, and no subsequent `search_similar_faces` call (any query
scoring, any `top_k`, any threshold) returns a match for `p`. -/
theorem delete_person_embeddings_visibility
    (dummyScore score : StoredVector → ℚ) (store : List StoredVector) (p : String)
    (topK : Nat) (threshold : ℚ)
    (hcount : (store.filter (fun v => v.person = p)).length ≤ 10000) :
    ∀ m ∈ search_similar_faces score (delete_person_embeddings dummyScore store p)
        topK threshold, m.person ≠ p := by
  intro m hm
  have hstore : ∀ v ∈ delete_person_embeddings dummyScore store p, v.person ≠ p := by
    intro v hv hvp
    simp only [delete_person_embeddings] at hv
    have hvs : v ∈ store := List.mem_of_mem_filter hv
    have hvid : v.id ∉ (storeQuery dummyScore store (fun v => v.person = p) 10000).map (·.id) := by
      have h2 := (List.mem_filter.mp hv).2
      simpa using h2
    apply hvid
    have hvf : v ∈ store.filter (fun v => v.person = p) :=
      List.mem_filter.mpr ⟨hvs, by simpa using hvp⟩
    have hq : storeQuery dummyScore store (fun v => v.person = p) 10000
        = List.insertionSort (scoreDesc dummyScore) (store.filter (fun v => v.person = p)) := by
      rw [storeQuery]
      apply List.take_of_length_le
      rw [(List.perm_insertionSort (scoreDesc dummyScore) _).length_eq]
      exact hcount
    rw [hq]
    exact List.mem_map_of_mem _ ((List.perm_insertionSort _ _).mem_iff.mpr hvf)
  have hraw : m ∈ (storeQuery score (delete_person_embeddings dummyScore store p)
      (fun _ => true) topK).map (toRawMatch score) :=
    mem_search_process _ _ m hm
  rcases List.mem_map.mp hraw with ⟨v, hv, rfl⟩
  rw [storeQuery] at hv
  have h1 : v ∈ List.insertionSort (scoreDesc score)
      ((delete_person_embeddings dummyScore store p).filter (fun _ => true)) :=
    List.Sublist.mem hv (List.take_sublist _ _)
  have h2 : v ∈ (delete_person_embeddings dummyScore store p).filter (fun _ => true) :=
    (List.perm_insertionSort _ _).mem_iff.mp h1
  exact hstore v (List.mem_of_mem_filter h2)

/-- C2 witness: a two-person store; after deleting `"P"`, the surviving
match `⟨1, "Q", 0⟩` indeed names a person other than `"P"`. -/
theorem delete_person_embeddings_visibility_witness :
    (smallStore.filter (fun v => v.person = "P")).length ≤ 10000
    ∧ (⟨1, "Q", 0⟩ : RawMatch) ∈ search_similar_faces score0
        (delete_person_embeddings score0 smallStore "P") 5 0
    ∧ (⟨1, "Q", 0⟩ : RawMatch).person ≠ "P" :=
  ⟨by decide, by decide,
   delete_person_embeddings_visibility score0 score0 smallStore "P" 5 0 (by decide)
     ⟨1, "Q", 0⟩ (by decide)⟩

theorem orderedInsert_score0 (x : StoredVector) (l : List StoredVector) :
    List.orderedInsert (scoreDesc score0) x l = x :: l := by
  cases l with
  | nil => rfl
  | cons b bs =>
    rw [List.orderedInsert, if_pos (show scoreDesc score0 x b from le_refl (0 : ℚ))]

theorem insertionSort_score0 :
    ∀ l : List StoredVector, List.insertionSort (scoreDesc score0) l = l := by
  intro l
  induction l with
  | nil => rfl
  | cons x xs ih => rw [List.insertionSort, ih, orderedInsert_score0]

/-- Evaluating the deletion on the 10001-embedding store: the deletion query
returns only the first 10000 vectors of person `"P"`, so the vector with id
10000 survives. -/
theorem delete_bigStore_eq :
    delete_person_embeddings score0 bigStore "P" = [⟨10000, "P", []⟩] := by
  have hsplit : bigStore
      = (List.range 10000).map (fun i => (⟨i, "P", []⟩ : StoredVector)) ++ [⟨10000, "P", []⟩] := by
    rw [bigStore, List.range_succ, List.map_append]
    rfl
  have hfilter : bigStore.filter (fun v => v.person = "P") = bigStore := by
    apply List.filter_eq_self.mpr
    intro v hv
    rcases List.mem_map.mp hv with ⟨i, _, rfl⟩
    rfl
  have hquery : storeQuery score0 bigStore (fun v => v.person = "P") 10000
      = (List.range 10000).map (fun i => (⟨i, "P", []⟩ : StoredVector)) := by
    rw [storeQuery, hfilter, insertionSort_score0, hsplit,
      List.take_append_of_le_length (by simp)]
    exact List.take_of_length_le (by simp)
  have hids : (storeQuery score0 bigStore (fun v => v.person = "P") 10000).map (·.id)
      = List.range 10000 := by
    rw [hquery, List.map_map]
    exact List.map_id _
  simp only [delete_person_embeddings, hids]
  rw [hsplit, List.filter_append]
  have h1 : ((List.range 10000).map (fun i => (⟨i, "P", []⟩ : StoredVector))).filter
      (fun v => v.id ∉ List.range 10000) = [] := by
    apply List.filter_eq_nil_iff.mpr
    intro v hv
    rcases List.mem_map.mp hv with ⟨i, hi, rfl⟩
    simpa using hi
  have h2 : ([⟨10000, "P", []⟩] : List StoredVector).filter
      (fun v => v.id ∉ List.range 10000) = [⟨10000, "P", []⟩] := by
    simp
  rw [h1, h2, List.nil_append]

/-- C2 counterexample.  With 10001 embeddings enrolled for person `"P"`,
`delete_person_embeddings "P"` leaves one of them behind — the deletion
query is capped at `top_k = 10000` — and an immediately following
`search_similar_faces` call still returns `"P"`. -/
theorem delete_person_embeddings_stale_match :
    (search_similar_faces score0 (delete_person_embeddings score0 bigStore "P") 10 0).map
      (·.person) = ["P"] := by
  rw [delete_bigStore_eq]
  decide

/-! The no-face outcome of `identify_person`. -/

/-- C3.  On an identification attempt where face detection finds no face,
`identify_person` as written does not return the soft `"no_face"` response:
the missing `await` at line 32 makes the tuple unpacking raise `TypeError`
first, so the attempt is logged with status `"error"` and re-raised as
`FaceRecognitionException`.  With the `await` restored, the same attempt
produces exactly the claimed soft outcome: a normal return with status
`"no_face"`, confidence 0, `recognized = false`, and a `"no_face"` log row. -/
theorem identify_person_no_face_logs_error :
    identify_person envNoFace
      = ([⟨none, 0, "error"⟩], Except.error RSExc.faceRecognition)
    ∧ identify_person_awaited envNoFace
      = ([⟨none, 0, "no_face"⟩], Except.ok ⟨none, none, 0, "no_face", false⟩) :=
  ⟨rfl, rfl⟩

/-! Similarity bounds and the zero-norm guard. -/

theorem dotR_cons (x y : ℝ) (xs ys : List ℝ) :
    dotR (x :: xs) (y :: ys) = x * y + dotR xs ys := rfl

theorem normSq_nonneg (v : List ℚ) : 0 ≤ normSq v := by
  rw [normSq]
  induction v with
  | nil => exact le_refl 0
  | cons x xs ih =>
    have hc : dotQ (x :: xs) (x :: xs) = x * x + dotQ xs xs := rfl
    rw [hc]
    exact add_nonneg (mul_self_nonneg x) ih

theorem dotR_map_div (c d : ℝ) :
    ∀ (v w : List ℝ),
      dotR (v.map (fun x => x / c)) (w.map (fun x => x / d)) = dotR v w / (c * d) := by
  intro v
  induction v with
  | nil => intro w; simp [dotR]
  | cons x xs ih =>
    intro w
    cases w with
    | nil => simp [dotR]
    | cons y ys =>
      rw [List.map_cons, List.map_cons, dotR_cons, dotR_cons, ih ys,
        div_mul_div_comm, div_add_div_same]

theorem castR_cons (x : ℚ) (xs : List ℚ) : castR (x :: xs) = (x : ℝ) :: castR xs := rfl

theorem dotR_map_cast :
    ∀ (v w : List ℚ), dotR (castR v) (castR w) = (dotQ v w : ℝ) := by
  intro v
  induction v with
  | nil => intro w; simp [dotR, dotQ, castR]
  | cons x xs ih =>
    intro w
    cases w with
    | nil => simp [dotR, dotQ, castR]
    | cons y ys =>
      have hq : dotQ (x :: xs) (y :: ys) = x * y + dotQ xs ys := rfl
      rw [castR_cons, castR_cons, dotR_cons, ih ys, hq]
      push_cast
      ring

theorem normalize_eq_map (v : List ℚ) :
    normalize v = (castR v).map (fun x => x / l2norm v) := by
  rw [normalize, castR, List.map_map]
  rfl

theorem dot_normalize (e1 e2 : List ℚ) :
    dotR (normalize e1) (normalize e2) = (dotQ e1 e2 : ℝ) / (l2norm e1 * l2norm e2) := by
  rw [normalize_eq_map, normalize_eq_map, dotR_map_div, dotR_map_cast]

theorem l2norm_mul_self (e : List ℚ) : l2norm e * l2norm e = (normSq e : ℝ) := by
  rw [l2norm]
  exact Real.mul_self_sqrt (by exact_mod_cast normSq_nonneg e)

theorem self_similarity (e : List ℚ) (h : normSq e ≠ 0) :
    dotR (normalize e) (normalize e) = 1 := by
  rw [dot_normalize, l2norm_mul_self]
  have hd : dotQ e e = normSq e := rfl
  rw [hd]
  exact div_self (by exact_mod_cast h)

theorem normSq_ex_ne : normSq [3, 4] ≠ 0 := by norm_num [normSq, dotQ]

theorem normSq_ex_zero : normSq [0, 0] = 0 := by simp [normSq, dotQ]

/-- C4.  The engine's similarity mapping always lands in `[0, 1]`, and the
self-similarity of any embedding of nonzero norm is exactly 1 (hence within
any floating tolerance of 1.0, in particular `1e-4`). -/
theorem calculate_similarity_bounded :
    (∀ e1 e2 : List ℚ, 0 ≤ calculate_similarity e1 e2 ∧ calculate_similarity e1 e2 ≤ 1)
    ∧ (∀ e : List ℚ, normSq e ≠ 0 → |calculate_similarity e e - 1| ≤ 1 / 10000) := by
  constructor
  · intro e1 e2
    rw [calculate_similarity]
    split
    · exact ⟨le_refl 0, zero_le_one⟩
    · exact ⟨le_min (le_max_right _ 0) zero_le_one, min_le_right _ 1⟩
  · intro e h
    have hguard : ¬ (normSq e = 0 ∨ normSq e = 0) := fun hc => h (hc.elim id id)
    rw [calculate_similarity, if_neg hguard]
    show |min (max ((dotR (normalize e) (normalize e) + 1) / 2) 0) 1 - 1| ≤ 1 / 10000
    have h2 : ((1 : ℝ) + 1) / 2 = 1 := by norm_num
    rw [self_similarity e h, h2, max_eq_left zero_le_one, min_self, sub_self, abs_zero]
    norm_num

/-- C4 witness at concrete embeddings `[3, 4]` and `[1, 0]`. -/
theorem calculate_similarity_bounded_witness :
    (0 ≤ calculate_similarity [3, 4] [1, 0] ∧ calculate_similarity [3, 4] [1, 0] ≤ 1)
    ∧ (normSq [3, 4] ≠ 0 ∧ |calculate_similarity [3, 4] [3, 4] - 1| ≤ 1 / 10000) :=
  ⟨calculate_similarity_bounded.1 [3, 4] [1, 0],
   normSq_ex_ne, calculate_similarity_bounded.2 [3, 4] normSq_ex_ne⟩

/-- C10.  The zero-norm guard of `calculate_similarity`: when either input
has zero L2 norm the function returns exactly 0 without normalizing, and in
the remaining case the normalizing divisor is provably nonzero, so the
division is never a division by zero. -/
theorem calculate_similarity_zero_norm_guard :
    (∀ e1 e2 : List ℚ, normSq e1 = 0 ∨ normSq e2 = 0 → calculate_similarity e1 e2 = 0)
    ∧ (∀ e1 e2 : List ℚ, normSq e1 ≠ 0 → normSq e2 ≠ 0 → l2norm e1 * l2norm e2 ≠ 0) := by
  constructor
  · intro e1 e2 hz
    rw [calculate_similarity, if_pos hz]
  · intro e1 e2 h1 h2
    have hpos : ∀ e : List ℚ, normSq e ≠ 0 → l2norm e ≠ 0 := by
      intro e he
      rw [l2norm, Real.sqrt_ne_zero']
      exact_mod_cast lt_of_le_of_ne (normSq_nonneg e) (Ne.symm he)
    exact mul_ne_zero (hpos e1 h1) (hpos e2 h2)

/-- C10 witness: a zero vector against a nonzero one. -/
theorem calculate_similarity_zero_norm_guard_witness :
    normSq [0, 0] = 0 ∧ calculate_similarity [0, 0] [1, 2] = 0 :=
  ⟨normSq_ex_zero, calculate_similarity_zero_norm_guard.1 [0, 0] [1, 2] (Or.inl normSq_ex_zero)⟩

/-- C5 (amended).  Whenever extraction succeeds and the raw model output has
nonzero L2 norm, the returned embedding is the unit-normalized raw vector and
has L2 norm exactly 1. -/
theorem extract_embedding_unit_norm (e : List ℚ) (rest : List (List ℚ))
    (h : normSq e ≠ 0) :
    extract_embedding_sync (e :: rest) = Except.ok (normalize e)
    ∧ normSqR (normalize e) = 1
    ∧ l2normR (normalize e) = 1 := by
  have hsq : normSqR (normalize e) = 1 := by
    have hr : normSqR (normalize e) = dotR (normalize e) (normalize e) := rfl
    rw [hr, self_similarity e h]
  exact ⟨rfl, hsq, by rw [l2normR, hsq, Real.sqrt_one]⟩

/-- C5 witness at the raw model output `[3, 4]`. -/
theorem extract_embedding_unit_norm_witness :
    normSq [3, 4] ≠ 0 ∧ l2normR (normalize [3, 4]) = 1 :=
  ⟨normSq_ex_ne, (extract_embedding_unit_norm [3, 4] [] normSq_ex_ne).2.2⟩

/-- C5 counterexample.  On the all-zero raw model output the extraction
still succeeds — the code only raises when the result list is empty — but
the returned vector has L2 norm 0, not 1 (not even within tolerance
`1e-4`): the division by the zero norm does not produce a unit vector. -/
theorem extract_embedding_zero_vector_not_unit :
    extract_embedding_sync [[0, 0]] = Except.ok (normalize [0, 0])
    ∧ l2normR (normalize [0, 0]) = 0
    ∧ ¬ (|l2normR (normalize [0, 0]) - 1| ≤ 1 / 10000) := by
  have hz : normalize [0, 0] = [0, 0] := by
    rw [normalize]
    simp
  have hzR : l2normR ([0, 0] : List ℝ) = 0 := by
    have hn : normSqR ([0, 0] : List ℝ) = 0 := by
      simp [normSqR, dotR]
    rw [l2normR, hn, Real.sqrt_zero]
  refine ⟨rfl, by rw [hz, hzR], ?_⟩
  rw [hz, hzR, zero_sub, abs_neg, abs_one]
  norm_num

/-! Batch isolation. -/

theorem flatten_eq_map {α β : Type} (l : List α) (f : α → List β) (g : α → β)
    (h : ∀ x ∈ l, f x = [g x]) : (l.map f).flatten = l.map g := by
  induction l with
  | nil => rfl
  | cons x xs ih =>
    rw [List.map_cons, List.map_cons, List.flatten_cons, h x (List.mem_cons_self x xs),
      ih (fun y hy => h y (List.mem_cons_of_mem x hy)), List.singleton_append]

theorem batchItemBody_index (it : BatchItemEnv) (i : Nat) :
    ∀ r, batchItemBody it i = Except.ok r → r.imageIndex = i := by
  intro r h
  rw [batchItemBody] at h
  split at h
  · cases h
  · split at h
    · injection h with h2
      rw [← h2]
    · split at h
      · cases h
      · split at h
        · injection h with h2
          rw [← h2]
        · injection h with h2
          rw [← h2]

theorem batchItemResult_index (it : BatchItemEnv) (i : Nat) :
    (batchItemResult it i).imageIndex = i := by
  rw [batchItemResult]
  cases hb : batchItemBody it i with
  | error e => rfl
  | ok r => exact batchItemBody_index it i r hb

/-- C6 (amended).  Provided no recognition-log write raises (or logs are not
saved at all), `batch_identify_faces` returns exactly one result per input
image, position `i` carries `image_index i`, and each item's entry is a
function of that item's own processing outcome alone — a per-item exception
is converted into that item's `"error"` entry without touching its
siblings. -/
theorem batch_identify_isolation (items : List BatchItemEnv) (saveLogs : Bool)
    (hlog : saveLogs = false ∨ ∀ it ∈ items, it.logWriteOk = true) :
    batch_identify_faces items saveLogs
      = items.enum.map (fun p => batchItemResult p.2 p.1)
    ∧ (batch_identify_faces items saveLogs).map (·.imageIndex)
      = List.range items.length := by
  have hrun : ∀ p ∈ items.enum, runBatchItem p.2 p.1 saveLogs = [batchItemResult p.2 p.1] := by
    intro p hp
    have hmem : p.2 ∈ items := List.snd_mem_of_mem_enum hp
    rw [runBatchItem, batchItemResult]
    cases hb : batchItemBody p.2 p.1 with
    | error e => rfl
    | ok r =>
      have hcond : (saveLogs && !p.2.logWriteOk) = false := by
        rcases hlog with h | h
        · rw [h, Bool.false_and]
        · rw [h p.2 hmem, Bool.not_true, Bool.and_false]
      simp [hcond]
  have h1 : batch_identify_faces items saveLogs
      = items.enum.map (fun p => batchItemResult p.2 p.1) := by
    rw [batch_identify_faces]
    exact flatten_eq_map _ _ _ hrun
  refine ⟨h1, ?_⟩
  rw [h1]
  calc (items.enum.map (fun p => batchItemResult p.2 p.1)).map (·.imageIndex)
      = items.enum.map (fun p => (batchItemResult p.2 p.1).imageIndex) := by
        rw [List.map_map]
        rfl
    _ = items.enum.map Prod.fst :=
        List.map_congr_left (fun p _ => batchItemResult_index p.2 p.1)
    _ = List.range items.length := List.enum_map_fst items

/-- C6 witness: a healthy log sink; a two-image batch whose second image is
corrupt yields exactly the two indexed results. -/
theorem batch_identify_isolation_witness :
    (∀ it ∈ itemsW, it.logWriteOk = true)
    ∧ (batch_identify_faces itemsW true).map (·.imageIndex) = List.range itemsW.length :=
  ⟨by decide, (batch_identify_isolation itemsW true (Or.inr (by decide))).2⟩

/-- C6 counterexample.  When item 0's recognition-log write raises, the
per-item `except` appends a second entry for the same item — the batch of 2
images returns 3 results, two of them carrying `image_index 0`, so the
result at position 1 does not correspond to image 1. -/
theorem batch_identify_log_failure_duplicates :
    (batch_identify_faces itemsBad true).map (·.imageIndex) = [0, 0, 1] := by
  decide

/-! No cache flag, no cache short-circuit. -/

/-- C7 (amended).  `RecognitionResult` has no boolean field at all — in
particular no cache-hit flag — and every `/identify` call, including a
repeated call on identical image bytes, invokes the
quality-assessment-and-embedding-extraction pipeline: there is no embedding
cache to short-circuit it. -/
theorem identify_face_always_runs_pipeline :
    (∀ f ∈ recognitionResultFields, f.2 ≠ FieldType.bool)
    ∧ (∀ env : ApiIdentifyEnv, (identify_face env).2.processInvoked = true) := by
  constructor
  · decide
  · intro env
    rw [identify_face]
    split
    · rfl
    · split
      · rfl
      · split
        · rfl
        · split
          · rfl
          · rfl

/-- C7 witness: the first schema field is not boolean, and a concrete
(repeated) identify call runs the pipeline. -/
theorem identify_face_always_runs_pipeline_witness :
    ("person_id", FieldType.optStr) ∈ recognitionResultFields
    ∧ ("person_id", FieldType.optStr).2 ≠ FieldType.bool
    ∧ (identify_face apiEnvRepeat).2.processInvoked = true :=
  ⟨by decide,
   identify_face_always_runs_pipeline.1 ("person_id", FieldType.optStr) (by decide),
   identify_face_always_runs_pipeline.2 apiEnvRepeat⟩

/-- C7 counterexample.  No field of `RecognitionResult` is boolean, so the
result exposes no cache-hit flag; and a second call on the same image bytes
still invokes the pipeline (the service keeps no per-image state), so it does
not skip quality assessment or embedding extraction. -/
theorem recognition_result_no_cache_flag :
    recognitionResultFields.all (fun f => f.2 != FieldType.bool) = true
    ∧ (identify_face apiEnvRepeat).2.processInvoked = true := by
  exact ⟨by decide, rfl⟩

/-! Low-quality images are not rejected. -/

/-- C9 (amended).  When the decoded image's quality score is below the
hard-coded floor 0.2, `process_image_for_recognition` only logs a warning:
no exception is raised because of low quality, no recommendation is
produced, and the pipeline proceeds to embedding extraction, returning the
extraction's own outcome. -/
theorem low_quality_only_warns (env : ProcImgEnv) (hd : env.decodeOk = true)
    (hq : env.quality < qualityWarnFloor) :
    (process_image_for_recognition env).2.warnedLowQuality = true
    ∧ (process_image_for_recognition env).2.extractionAttempted = true
    ∧ (process_image_for_recognition env).1 = env.extract := by
  rw [process_image_for_recognition, if_pos hd]
  exact ⟨decide_eq_true hq, rfl, rfl⟩

/-- C9 witness: a decodable image of quality 0. -/
theorem low_quality_only_warns_witness :
    (envLowQuality.decodeOk = true ∧ envLowQuality.quality < qualityWarnFloor)
    ∧ ((process_image_for_recognition envLowQuality).2.warnedLowQuality = true
       ∧ (process_image_for_recognition envLowQuality).2.extractionAttempted = true
       ∧ (process_image_for_recognition envLowQuality).1 = envLowQuality.extract) :=
  ⟨⟨rfl, by decide⟩, low_quality_only_warns envLowQuality rfl (by decide)⟩

/-- C9 counterexample.  An image with quality score 0 — below the claimed
floor 0.3 — is not rejected: embedding extraction runs and its result is
returned. -/
theorem low_quality_image_still_extracted :
    (process_image_for_recognition envLowQuality).1 = Except.ok [⟨[1], 1⟩]
    ∧ (process_image_for_recognition envLowQuality).2.extractionAttempted = true
    ∧ envLowQuality.quality < 3 / 10 := by
  refine ⟨rfl, rfl, ?_⟩
  have hq : envLowQuality.quality = 0 := rfl
  rw [hq]
  norm_num

end FaceRec
